import Mathlib

/-!
Verification of the streaming-iterator library (src/lib.rs, src/slice.rs,
src/sources.rs) against its specification.

The Rust trait StreamingIterator is a two-phase cursor: advance moves the
cursor, get peeks the current element.  Every concrete iterator type of the
library is embedded as a Lean structure mirroring the Rust struct fields,
with one Lean function per Rust method, translated line by line from source.
The wrapped standard Iterator underneath Convert is modelled as a list: next
pulls the head, next_back pulls the last element (a double-ended list
iterator, matching slice and vec iterators).
-/

set_option maxHeartbeats 1600000

/-- State of sources::Convert: the wrapped iterator (modelled as the list of
elements it has not yet produced) and the current-item slot. -/
structure Convert (α : Type u) where
  it : List α
  item : Option α

/-- The constructor sources::convert: item slot starts empty. -/
def convert (l : List α) : Convert α :=
  { it := l, item := none }

/-- Convert::advance: self.item = self.it.next(). -/
def Convert.advance (s : Convert α) : Convert α :=
  { it := s.it.tail, item := s.it.head? }

/-- Convert::get: self.item.as_ref(). -/
def Convert.get (s : Convert α) : Option α :=
  s.item

/-- Convert::advance_back: self.item = self.it.next_back(). -/
def Convert.advance_back (s : Convert α) : Convert α :=
  { it := s.it.dropLast, item := s.it.getLast? }

/-- StreamingIterator::is_done default body, inherited by Convert:
self.get().is_none(). -/
def Convert.is_done (s : Convert α) : Bool :=
  s.get.isNone

/-- Convert::fold: delegates to the wrapped iterator's fold, ignoring the
current-item slot. -/
def Convert.fold (s : Convert α) (init : β) (f : β → α → β) : β :=
  s.it.foldl f init

/-- Convert::count: delegates to the wrapped iterator's count. -/
def Convert.count (s : Convert α) : Nat :=
  s.it.length

/-- State of sources::Once. -/
structure Once (α : Type u) where
  first : Bool
  item : Option α

/-- The constructor sources::once. -/
def once (x : α) : Once α :=
  { first := true, item := some x }

/-- Once::advance: the first advance only clears the flag, later advances
clear the item. -/
def Once.advance (s : Once α) : Once α :=
  if s.first then { s with first := false } else { s with item := none }

/-- Once::get. -/
def Once.get (s : Once α) : Option α :=
  s.item

/-- State of sources::OnceWith; the FnOnce generator is modelled as a pure
function from Unit, consumed via Option.take. -/
structure OnceWith (α : Type u) where
  gen : Option (Unit → α)
  item : Option α

/-- The constructor sources::once_with: generator kept, item slot empty. -/
def once_with (f : Unit → α) : OnceWith α :=
  { gen := some f, item := none }

/-- OnceWith::advance: self.item = self.gen.take().map(gen ()). -/
def OnceWith.advance (s : OnceWith α) : OnceWith α :=
  { gen := none, item := s.gen.map fun g => g () }

/-- OnceWith::get. -/
def OnceWith.get (s : OnceWith α) : Option α :=
  s.item

/-- Iterated advance for Once. -/
def Once.advanceN (s : Once α) : Nat → Once α
  | 0 => s
  | n + 1 => (s.advanceN n).advance

/-- Iterated advance for OnceWith. -/
def OnceWith.advanceN (s : OnceWith α) : Nat → OnceWith α
  | 0 => s
  | n + 1 => (s.advanceN n).advance

lemma Once.advanceN_two_item (x : α) (k : Nat) :
    ((once x).advanceN (k + 2)).item = none := by
  induction k with
  | zero => rfl
  | succ k ih =>
      show (((once x).advanceN (k + 2)).advance).item = none
      unfold Once.advance
      split <;> simp [ih]

lemma OnceWith.advance_gen (s : OnceWith α) : s.advance.gen = none := rfl

lemma OnceWith.advanceN_two_item_absent (f : Unit → α) (k : Nat) :
    ((once_with f).advanceN (k + 2)).item = none := by
  induction k with
  | zero => rfl
  | succ k ih =>
      show (((once_with f).advanceN (k + 2)).advance).item = none
      have hg : ((once_with f).advanceN (k + 2)).gen = none := by
        show (((once_with f).advanceN (k + 1)).advance).gen = none
        exact OnceWith.advance_gen _
      unfold OnceWith.advance
      simp [hg]

/-- Claim C10: before any advance, once(x).get() already returns Some x while
once_with(f).get() returns None; after the first advance both hold exactly one
element, and from the second advance on both are absent forever. -/
theorem c10_once_get_before_first_advance (x : α) (f : Unit → α) :
    (once x).get = some x ∧
    (once_with f).get = none ∧
    ((once x).advanceN 1).get = some x ∧
    ((once_with f).advanceN 1).get = some (f ()) ∧
    (∀ k, 2 ≤ k → ((once x).advanceN k).get = none) ∧
    (∀ k, 2 ≤ k → ((once_with f).advanceN k).get = none) := by
  refine ⟨rfl, rfl, rfl, rfl, ?_, ?_⟩
  · intro k hk
    obtain ⟨m, rfl⟩ : ∃ m, k = m + 2 := ⟨k - 2, by omega⟩
    exact Once.advanceN_two_item x m
  · intro k hk
    obtain ⟨m, rfl⟩ : ∃ m, k = m + 2 := ⟨k - 2, by omega⟩
    exact OnceWith.advanceN_two_item_absent f m

/-- Witness for C10 at a concrete input. -/
theorem c10_once_get_before_first_advance_witness :
    ((once 7).advanceN 5).get = none ∧ ((once_with fun _ => 9).advanceN 2).get = none :=
  ⟨(c10_once_get_before_first_advance 7 (fun _ => 9)).2.2.2.2.1 5 (by omega),
   (c10_once_get_before_first_advance 7 (fun _ => 9)).2.2.2.2.2 2 (by omega)⟩

/-- The position tag of slice::WindowsMut. -/
inductive WPosition where
  | Init : WPosition
  | Front : WPosition
  | Back : WPosition
deriving DecidableEq, Repr

/-- State of slice::WindowsMut.  The Rust struct holds a single mutable
subslice of the caller's buffer; to reason about mutation visibility the
embedding keeps the caller's whole buffer split in three: the part already
consumed from the front, the live slice (the Rust field), and the part
already consumed from the back. -/
structure WindowsMut (α : Type u) where
  left : List α
  slice : List α
  right : List α
  size : Nat
  position : WPosition

/-- The caller's buffer that the iterator was built over, including the
elements the iterator has already released. -/
def WindowsMut.buffer (s : WindowsMut α) : List α :=
  s.left ++ s.slice ++ s.right

/-- The constructor slice::windows_mut.  NonZeroUsize::new(size).expect
panics when size is zero; the panic is modelled as none. -/
def windows_mut (l : List α) (size : Nat) : Option (WindowsMut α) :=
  if size = 0 then none
  else some { left := [], slice := l, right := [], size := size, position := WPosition.Init }

/-- WindowsMut::consume: drop one element from whichever end last produced a
window; split_first_mut and split_last_mut leave an empty slice unchanged. -/
def WindowsMut.consume (s : WindowsMut α) : WindowsMut α :=
  match s.position with
  | WPosition.Init => s
  | WPosition.Front =>
      match s.slice with
      | [] => s
      | x :: tail => { s with left := s.left ++ [x], slice := tail }
  | WPosition.Back =>
      match s.slice.getLast? with
      | none => s
      | some x => { s with slice := s.slice.dropLast, right := x :: s.right }

/-- WindowsMut::advance: consume then re-tag as Front. -/
def WindowsMut.advance (s : WindowsMut α) : WindowsMut α :=
  { s.consume with position := WPosition.Front }

/-- WindowsMut::advance_back: consume then re-tag as Back. -/
def WindowsMut.advance_back (s : WindowsMut α) : WindowsMut α :=
  { s.consume with position := WPosition.Back }

/-- WindowsMut::get_front: self.slice.get(..size). -/
def WindowsMut.get_front (s : WindowsMut α) : Option (List α) :=
  if s.size ≤ s.slice.length then some (s.slice.take s.size) else none

/-- WindowsMut::get_back: slice.get(len - size ..), none when len < size. -/
def WindowsMut.get_back (s : WindowsMut α) : Option (List α) :=
  if s.size ≤ s.slice.length then some (s.slice.drop (s.slice.length - s.size)) else none

/-- WindowsMut::get. -/
def WindowsMut.get (s : WindowsMut α) : Option (List α) :=
  match s.position with
  | WPosition.Init => none
  | WPosition.Front => s.get_front
  | WPosition.Back => s.get_back

/-- WindowsMut::is_done override: self.slice.len() < self.size.get(). -/
def WindowsMut.is_done (s : WindowsMut α) : Bool :=
  s.slice.length < s.size

/-- Writing through WindowsMut::get_mut while positioned at the front:
the first size elements of the live slice are replaced, which is the only
mutation the forward write loop of claim C3 performs. -/
def WindowsMut.write_front (s : WindowsMut α) (w : List α) : WindowsMut α :=
  { s with slice := w ++ s.slice.drop s.size }

/-- Claim C8: windows_mut(slice, 0) is a construction-time panic for every
slice, while construction with any size of at least 1 succeeds. -/
theorem c8_windows_mut_zero_size_panics {α : Type u} :
    (∀ l : List α, windows_mut l 0 = none) ∧
    (∀ (l : List α) (size : Nat), 1 ≤ size → (windows_mut l size).isSome) := by
  constructor
  · intro l; rfl
  · intro l size h
    unfold windows_mut
    rw [if_neg (by omega)]
    rfl

/-- Witness for C8 at a concrete input. -/
theorem c8_windows_mut_zero_size_panics_witness :
    windows_mut ([3, 1] : List Nat) 0 = none ∧ (windows_mut ([3, 1] : List Nat) 2).isSome :=
  ⟨c8_windows_mut_zero_size_panics.1 [3, 1],
   c8_windows_mut_zero_size_panics.2 [3, 1] 2 (by omega)⟩

/-- State of sources::Successors.  The successor closure is carried in the
state like the Rust struct field; it is modelled as a pure function. -/
structure Successors (α : Type u) where
  first : Bool
  item : Option α
  succ : α → Option α

/-- The constructor sources::successors. -/
def successors (first : Option α) (succ : α → Option α) : Successors α :=
  { first := true, item := first, succ := succ }

/-- Successors::advance, instrumented: the Bool records whether this advance
invoked the successor closure.  The first advance only clears the flag;
afterwards item.take() feeds the closure only when an item is present. -/
def Successors.advanceI (s : Successors α) : Successors α × Bool :=
  if s.first then ({ s with first := false }, false)
  else
    match s.item with
    | some x => ({ s with item := s.succ x }, true)
    | none => (s, false)

/-- Successors::advance (state part only). -/
def Successors.advance (s : Successors α) : Successors α :=
  s.advanceI.1

/-- Successors::get. -/
def Successors.get (s : Successors α) : Option α :=
  s.item

/-- Iterated advance for Successors, accumulating the number of successor
invocations performed. -/
def Successors.advanceNI (s : Successors α) : Nat → Successors α × Nat
  | 0 => (s, 0)
  | n + 1 =>
      let (s', c) := s.advanceNI n
      let (s'', b) := s'.advanceI
      (s'', c + if b then 1 else 0)

lemma Successors.advanceI_of_none {s : Successors α} (h : s.item = none) :
    s.advanceI = ({ s with first := false }, false) := by
  unfold Successors.advanceI
  split
  · rfl
  · rw [h]
    rcases s with ⟨f, it, sc⟩
    simp_all

lemma Successors.advanceNI_of_none {s : Successors α} (h : s.item = none) (k : Nat) :
    (s.advanceNI k).1.item = none ∧ (s.advanceNI k).2 = 0 := by
  induction k with
  | zero => exact ⟨h, rfl⟩
  | succ k ih =>
      have step := Successors.advanceI_of_none ih.1
      constructor
      · show (s.advanceNI k).1.advanceI.1.item = none
        rw [step]
        exact ih.1
      · show (s.advanceNI k).2 + (if (s.advanceNI k).1.advanceI.2 then 1 else 0) = 0
        rw [step]
        simp [ih.2]

/-- The concrete successor closure from the spec scenario:
next = count + 1 while count < 3. -/
def succUpTo3 : Nat → Option Nat :=
  fun c => if c < 3 then some (c + 1) else none

/-- Claim C9: for the successor source, absence is absorbing and the closure
is never invoked once the item is absent; concretely,
successors(Some 1, +1 while < 3) yields 1, 2, 3 and then absent on every
subsequent step. -/
theorem c9_successors_absent_stays_absent :
    (∀ {α : Type} (s : Successors α), s.get = none →
      ∀ k, (s.advanceNI k).1.get = none ∧ (s.advanceNI k).2 = 0) ∧
    (((successors (some 1) succUpTo3).advanceNI 1).1.get = some 1 ∧
     ((successors (some 1) succUpTo3).advanceNI 2).1.get = some 2 ∧
     ((successors (some 1) succUpTo3).advanceNI 3).1.get = some 3 ∧
     ∀ m, 4 ≤ m → ((successors (some 1) succUpTo3).advanceNI m).1.get = none) := by
  refine ⟨?_, rfl, rfl, rfl, ?_⟩
  · intro α s h k
    exact Successors.advanceNI_of_none h k
  · intro m hm
    obtain ⟨j, rfl⟩ : ∃ j, m = 4 + j := ⟨m - 4, by omega⟩
    have h4 : ((successors (some 1) succUpTo3).advanceNI 4).1.item = none := by rfl
    have hsplit : ∀ j, ((successors (some 1) succUpTo3).advanceNI (4 + j)).1
        = (((successors (some 1) succUpTo3).advanceNI 4).1.advanceNI j).1 := by
      intro j
      induction j with
      | zero => rfl
      | succ j ih =>
          show (((successors (some 1) succUpTo3).advanceNI (4 + j)).1.advanceI.1) = _
          rw [ih]
          rfl
    rw [show ((successors (some 1) succUpTo3).advanceNI (4 + j)).1.get
        = ((successors (some 1) succUpTo3).advanceNI (4 + j)).1.item from rfl, hsplit j]
    exact (Successors.advanceNI_of_none h4 j).1

/-- Witness for C9 at a concrete input. -/
theorem c9_successors_absent_stays_absent_witness :
    ((successors (none : Option Nat) succUpTo3).advanceNI 3).1.get = none ∧
    ((successors (some 1) succUpTo3).advanceNI 6).1.get = none :=
  ⟨(c9_successors_absent_stays_absent.1 (successors none succUpTo3) rfl 3).1,
   c9_successors_absent_stays_absent.2.2.2.2 6 (by omega)⟩

/-- An abstract streaming iterator over states of type σ, carrying the two
operations Fuse relies on: next (the possibly overridden
StreamingIterator::next, returning the mutated state and the peeked value)
and get. -/
structure Source (σ : Type u) (α : Type v) where
  next : σ → σ × Option α
  get : σ → Option α

/-- The view of Convert as a Source, with the default next = advance; get. -/
def Convert.source (α : Type u) : Source (Convert α) α :=
  { next := fun s => (s.advance, s.advance.get), get := Convert.get }

/-- The state tag of Fuse. -/
inductive FuseState where
  | Start : FuseState
  | Middle : FuseState
  | End : FuseState
deriving DecidableEq, Repr

/-- Fuse::next override, translated arm by arm: in Start and Middle it pulls
from the upstream next and moves to End exactly when that pull is absent; in
End the upstream is never touched again. -/
def Fuse.next (src : Source σ α) : σ × FuseState → (σ × FuseState) × Option α
  | (u, FuseState.Start) =>
      match src.next u with
      | (u', some i) => ((u', FuseState.Middle), some i)
      | (u', none) => ((u', FuseState.End), none)
  | (u, FuseState.Middle) =>
      match src.next u with
      | (u', some i) => ((u', FuseState.Middle), some i)
      | (u', none) => ((u', FuseState.End), none)
  | (u, FuseState.End) => ((u, FuseState.End), none)

/-- Fuse::get: absent in Start and End, upstream get in Middle. -/
def Fuse.get (src : Source σ α) : σ × FuseState → Option α
  | (_, FuseState.Start) => none
  | (u, FuseState.Middle) => src.get u
  | (_, FuseState.End) => none

/-- The state reached after k next() calls on the fused iterator, starting
from the fresh fuse of upstream state u0 (FuseState::Start). -/
def Fuse.stateN (src : Source σ α) (u0 : σ) : Nat → σ × FuseState
  | 0 => (u0, FuseState.Start)
  | k + 1 => (Fuse.next src (Fuse.stateN src u0 k)).1

/-- The value returned by the (k+1)-th next() call on the fused iterator. -/
def Fuse.obs (src : Source σ α) (u0 : σ) (k : Nat) : Option α :=
  (Fuse.next src (Fuse.stateN src u0 k)).2

/-- The upstream state after k next() calls on the bare source. -/
def Source.stateN (src : Source σ α) (u0 : σ) : Nat → σ
  | 0 => u0
  | k + 1 => (src.next (Source.stateN src u0 k)).1

/-- The value returned by the (k+1)-th next() call on the bare source. -/
def Source.obs (src : Source σ α) (u0 : σ) (k : Nat) : Option α :=
  (src.next (Source.stateN src u0 k)).2


lemma Fuse.next_notEnd (src : Source σ α) (u : σ) (st : FuseState)
    (h : st ≠ FuseState.End) :
    Fuse.next src (u, st)
      = (match src.next u with
         | (u', some i) => ((u', FuseState.Middle), some i)
         | (u', none) => ((u', FuseState.End), none)) := by
  cases st with
  | Start => rfl
  | Middle => rfl
  | End => exact absurd rfl h

lemma Fuse.tracks (src : Source σ α) (u0 : σ) (n : Nat)
    (hpresent : ∀ j, j < n → (Source.obs src u0 j).isSome) :
    ∀ k, k ≤ n → (Fuse.stateN src u0 k).1 = Source.stateN src u0 k ∧
      (Fuse.stateN src u0 k).2 ≠ FuseState.End := by
  intro k
  induction k with
  | zero => exact fun _ => ⟨rfl, by simp [Fuse.stateN]⟩
  | succ k ih =>
      intro hk
      obtain ⟨h1, h2⟩ := ih (Nat.le_of_succ_le hk)
      obtain ⟨v, hv⟩ := Option.isSome_iff_exists.mp (hpresent k (Nat.lt_of_succ_le hk))
      rcases hfs : Fuse.stateN src u0 k with ⟨u, st⟩
      rw [hfs] at h1 h2
      have hu : u = Source.stateN src u0 k := h1
      have hnx : src.next u = ((src.next (Source.stateN src u0 k)).1, some v) := by
        rw [hu]
        exact Prod.ext rfl hv
      have hstep : Fuse.stateN src u0 (k + 1) = (Fuse.next src (u, st)).1 := by
        show (Fuse.next src (Fuse.stateN src u0 k)).1 = _
        rw [hfs]
      rw [hstep, Fuse.next_notEnd src u st h2, hnx]
      exact ⟨rfl, by simp⟩

lemma Fuse.obs_eq (src : Source σ α) (u0 : σ) (n : Nat)
    (hpresent : ∀ j, j < n → (Source.obs src u0 j).isSome) :
    ∀ k, k ≤ n → Fuse.obs src u0 k = Source.obs src u0 k := by
  intro k hk
  obtain ⟨h1, h2⟩ := Fuse.tracks src u0 n hpresent k hk
  rcases hfs : Fuse.stateN src u0 k with ⟨u, st⟩
  rw [hfs] at h1 h2
  have hobs : Fuse.obs src u0 k = (Fuse.next src (u, st)).2 := by
    unfold Fuse.obs
    rw [hfs]
  rw [hobs, Fuse.next_notEnd src u st h2]
  have hnx : src.next u = ((src.next u).1, (src.next u).2) := rfl
  rcases ho : (src.next u).2 with _ | v
  · rw [hnx, ho]
    show none = Source.obs src u0 k
    unfold Source.obs
    rw [← h1, ho]
  · rw [hnx, ho]
    show some v = Source.obs src u0 k
    unfold Source.obs
    rw [← h1, ho]

lemma Fuse.end_absorbing (src : Source σ α) (u0 : σ) (j : Nat)
    (h : (Fuse.stateN src u0 j).2 = FuseState.End) :
    (Fuse.stateN src u0 (j + 1)).2 = FuseState.End ∧ Fuse.obs src u0 j = none := by
  rcases hs : Fuse.stateN src u0 j with ⟨u, st⟩
  rw [hs] at h
  have hst : st = FuseState.End := h
  subst hst
  constructor
  · show (Fuse.next src (Fuse.stateN src u0 j)).1.2 = _
    rw [hs]
    rfl
  · unfold Fuse.obs
    rw [hs]
    rfl

lemma Fuse.end_forever (src : Source σ α) (u0 : σ) (m : Nat)
    (h : (Fuse.stateN src u0 m).2 = FuseState.End) :
    ∀ j, m ≤ j → (Fuse.stateN src u0 j).2 = FuseState.End := by
  intro j hj
  obtain ⟨d, rfl⟩ : ∃ d, j = m + d := ⟨j - m, by omega⟩
  induction d with
  | zero => exact h
  | succ d ih => exact (Fuse.end_absorbing src u0 (m + d) (ih (by omega))).1

/-- Claim C1: for a finite upstream of length n (the first n next() calls
present, the (n+1)-th absent), the fused iterator answers its first n next()
calls with exactly the upstream values (all present), answers the (n+1)-th
and every later next() with absent, keeps get() absent from the (n+1)-th
next() call on, and already reports get() absent before any advance. -/
theorem c1_fuse_exhaustion {σ : Type u} {α : Type v}
    (src : Source σ α) (u0 : σ) (n : Nat)
    (hpresent : ∀ j, j < n → (Source.obs src u0 j).isSome)
    (habsent : Source.obs src u0 n = none) :
    (∀ k, k < n → Fuse.obs src u0 k = Source.obs src u0 k ∧ (Fuse.obs src u0 k).isSome) ∧
    Fuse.obs src u0 n = none ∧
    (∀ m, n ≤ m → Fuse.obs src u0 m = none) ∧
    (∀ m, n < m → Fuse.get src (Fuse.stateN src u0 m) = none) ∧
    Fuse.get src (Fuse.stateN src u0 0) = none := by
  have hend : (Fuse.stateN src u0 (n + 1)).2 = FuseState.End := by
    obtain ⟨h1, h2⟩ := Fuse.tracks src u0 n hpresent n (Nat.le_refl n)
    rcases hfs : Fuse.stateN src u0 n with ⟨u, st⟩
    rw [hfs] at h1 h2
    have hu : u = Source.stateN src u0 n := h1
    have hnx : src.next u = ((src.next (Source.stateN src u0 n)).1, none) := by
      rw [hu]
      exact Prod.ext rfl habsent
    show (Fuse.next src (Fuse.stateN src u0 n)).1.2 = _
    rw [hfs, Fuse.next_notEnd src u st h2, hnx]
  have hobs_none : ∀ m, n ≤ m → Fuse.obs src u0 m = none := by
    intro m hm
    rcases Nat.lt_or_ge m (n + 1) with hlt | hge
    · have hmn : m = n := by omega
      subst hmn
      rw [Fuse.obs_eq src u0 m hpresent m (Nat.le_refl m)]
      exact habsent
    · exact (Fuse.end_absorbing src u0 m (Fuse.end_forever src u0 (n + 1) hend m hge)).2
  refine ⟨?_, hobs_none n (Nat.le_refl n), hobs_none, ?_, rfl⟩
  · intro k hk
    have he := Fuse.obs_eq src u0 n hpresent k (Nat.le_of_lt hk)
    exact ⟨he, he ▸ hpresent k hk⟩
  · intro m hm
    have hmend := Fuse.end_forever src u0 (n + 1) hend m hm
    rcases hs : Fuse.stateN src u0 m with ⟨u, st⟩
    rw [hs] at hmend
    have hst : st = FuseState.End := hmend
    subst hst
    rfl

/-- Witness for C1: the fused conversion of the two-element list [5, 7]. -/
theorem c1_fuse_exhaustion_witness :
    Fuse.obs (Convert.source Nat) (convert [5, 7]) 0 = some 5 ∧
    Fuse.obs (Convert.source Nat) (convert [5, 7]) 2 = none ∧
    Fuse.get (Convert.source Nat) (Fuse.stateN (Convert.source Nat) (convert [5, 7]) 4) = none := by
  have h := c1_fuse_exhaustion (Convert.source Nat) (convert [5, 7]) 2
    (by decide) (by decide)
  refine ⟨?_, h.2.1, h.2.2.2.1 4 (by omega)⟩
  have h0 := (h.1 0 (by omega)).1
  rw [h0]
  decide

/-- An abstract double-ended streaming iterator over states of type σ: the
five methods that Rev reads from its wrapped iterator.  next and next_back
carry the possibly overridden method bodies; when a type does not override
them they are advance-then-get, as the trait defaults prescribe. -/
structure DESIter (σ : Type u) (α : Type v) where
  advance : σ → σ
  advance_back : σ → σ
  get : σ → Option α
  is_done : σ → Bool
  next : σ → σ × Option α
  next_back : σ → σ × Option α

/-- The Rev combinator, method by method from the three impl blocks:
advance calls the wrapped advance_back and vice versa, next calls next_back
and vice versa, get and is_done delegate. -/
def Rev (it : DESIter σ α) : DESIter σ α :=
  { advance := it.advance_back
    advance_back := it.advance
    get := it.get
    is_done := it.is_done
    next := it.next_back
    next_back := it.next }

/-- The sequence of values produced by n successive next() calls. -/
def DESIter.nextTrace (it : DESIter σ α) (s : σ) : Nat → List (Option α)
  | 0 => []
  | n + 1 =>
      let (s', o) := it.next s
      o :: it.nextTrace s' n

/-- Claim C6: reversing twice is the identity on the iterator's observable
behaviour; iterating s.rev().rev() forward via next() yields exactly the
sequence of s iterated forward via next(), from any state and for any length,
and in fact Rev (Rev it) is the very same iterator. -/
theorem c6_rev_rev_roundtrip {σ : Type u} {α : Type v} (it : DESIter σ α) :
    Rev (Rev it) = it ∧
    ∀ (s : σ) (n : Nat), (Rev (Rev it)).nextTrace s n = it.nextTrace s n :=
  ⟨rfl, fun _ _ => rfl⟩

/-- The state tag of Chain. -/
inductive ChainState where
  | BothForward : ChainState
  | BothBackward : ChainState
  | Front : ChainState
  | Back : ChainState
deriving DecidableEq, Repr

/-- State of the Chain combinator over two Convert components. -/
structure Chain (α : Type u) where
  a : Convert α
  b : Convert α
  state : ChainState

/-- StreamingIterator::chain: both components fresh, state BothForward. -/
def chain (la lb : List α) : Chain α :=
  { a := convert la, b := convert lb, state := ChainState.BothForward }

/-- Chain::advance: in the Both states advance a and, if a is now done,
advance b and move to Back; in the single-sided states advance that side. -/
def Chain.advance (s : Chain α) : Chain α :=
  match s.state with
  | ChainState.BothForward | ChainState.BothBackward =>
      let a' := s.a.advance
      if a'.is_done then { a := a', b := s.b.advance, state := ChainState.Back }
      else { a := a', b := s.b, state := ChainState.BothForward }
  | ChainState.Front => { s with a := s.a.advance }
  | ChainState.Back => { s with b := s.b.advance }

/-- Chain::advance_back: mirror image of advance. -/
def Chain.advance_back (s : Chain α) : Chain α :=
  match s.state with
  | ChainState.BothForward | ChainState.BothBackward =>
      let b' := s.b.advance_back
      if b'.is_done then { a := s.a.advance_back, b := b', state := ChainState.Front }
      else { a := s.a, b := b', state := ChainState.BothBackward }
  | ChainState.Front => { s with a := s.a.advance_back }
  | ChainState.Back => { s with b := s.b.advance_back }

/-- Chain::get: delegate to whichever component is active per state. -/
def Chain.get (s : Chain α) : Option α :=
  match s.state with
  | ChainState.BothForward | ChainState.Front => s.a.get
  | ChainState.BothBackward | ChainState.Back => s.b.get

/-- Chain::is_done: delegate to whichever component is active per state. -/
def Chain.is_done (s : Chain α) : Bool :=
  match s.state with
  | ChainState.BothForward | ChainState.Front => s.a.is_done
  | ChainState.BothBackward | ChainState.Back => s.b.is_done

/-- The Chain combinator packaged as a double-ended iterator; next and
next_back are the trait defaults (Chain overrides neither). -/
def Chain.des (α : Type u) : DESIter (Chain α) α :=
  { advance := Chain.advance
    advance_back := Chain.advance_back
    get := Chain.get
    is_done := Chain.is_done
    next := fun s => (s.advance, s.advance.get)
    next_back := fun s => (s.advance_back, s.advance_back.get) }

/-- Run a sequence of operations, false meaning advance and true meaning
advance_back, returning the final state. -/
def opRun (adv bck : σ → σ) : List Bool → σ → σ
  | [], s => s
  | d :: ds, s => opRun adv bck ds (if d then bck s else adv s)

/-- Run a sequence of operations, recording get() after each one. -/
def opTrace (adv bck : σ → σ) (get : σ → Option α) : List Bool → σ → List (Option α)
  | [], _ => []
  | d :: ds, s =>
      let s' := if d then bck s else adv s
      get s' :: opTrace adv bck get ds s'

/-- The reference model of a double-ended iterator over a list: the list of
elements not yet consumed plus a current slot. -/
structure Deque (α : Type u) where
  l : List α
  cur : Option α

def Deque.advance (d : Deque α) : Deque α :=
  { l := d.l.tail, cur := d.l.head? }

def Deque.advance_back (d : Deque α) : Deque α :=
  { l := d.l.dropLast, cur := d.l.getLast? }

def Deque.get (d : Deque α) : Option α :=
  d.cur

/-- The unconsumed elements of a Chain, in order, as routed by its state. -/
def Chain.rem (s : Chain α) : List α :=
  match s.state with
  | ChainState.BothForward | ChainState.BothBackward => s.a.it ++ s.b.it
  | ChainState.Front => s.a.it
  | ChainState.Back => s.b.it

/-- The bisimulation between Chain states and deque states: same current
value, same unconsumed elements, and the single-sided states really have
exhausted the other side. -/
def ChainRel (s : Chain α) (d : Deque α) : Prop :=
  s.get = d.cur ∧ s.rem = d.l ∧
  (s.state = ChainState.Front → s.b.it = []) ∧
  (s.state = ChainState.Back → s.a.it = [])

lemma ChainRel.init (la lb : List α) : ChainRel (chain la lb) ⟨la ++ lb, none⟩ :=
  ⟨rfl, rfl, fun h => by simp [chain] at h, fun h => by simp [chain] at h⟩

lemma ChainRel.step_advance {s : Chain α} {d : Deque α} (h : ChainRel s d) :
    ChainRel s.advance d.advance := by
  obtain ⟨hget, hrem, hfront, hback⟩ := h
  rcases s with ⟨⟨ita, itema⟩, ⟨itb, itemb⟩, st⟩
  cases st with
  | BothForward | BothBackward =>
      have hd : d.l = ita ++ itb := hrem.symm
      cases ita with
      | nil =>
          refine ⟨?_, ?_, ?_, ?_⟩ <;>
            simp [Chain.advance, Convert.advance, Convert.is_done, Convert.get,
              Chain.get, Chain.rem, Deque.advance, hd, Option.isNone]
      | cons x xs =>
          refine ⟨?_, ?_, ?_, ?_⟩ <;>
            simp [Chain.advance, Convert.advance, Convert.is_done, Convert.get,
              Chain.get, Chain.rem, Deque.advance, hd, Option.isNone]
  | Front =>
      have hb : itb = [] := hfront rfl
      have hd : d.l = ita := hrem.symm
      refine ⟨?_, ?_, ?_, ?_⟩ <;>
        simp [Chain.advance, Convert.advance, Convert.get, Chain.get, Chain.rem,
          Deque.advance, hd, hb]
  | Back =>
      have ha : ita = [] := hback rfl
      have hd : d.l = itb := hrem.symm
      refine ⟨?_, ?_, ?_, ?_⟩ <;>
        simp [Chain.advance, Convert.advance, Convert.get, Chain.get, Chain.rem,
          Deque.advance, hd, ha]

lemma ChainRel.step_advance_back {s : Chain α} {d : Deque α} (h : ChainRel s d) :
    ChainRel s.advance_back d.advance_back := by
  obtain ⟨hget, hrem, hfront, hback⟩ := h
  rcases s with ⟨⟨ita, itema⟩, ⟨itb, itemb⟩, st⟩
  cases st with
  | BothForward | BothBackward =>
      have hd : d.l = ita ++ itb := hrem.symm
      rcases itb.eq_nil_or_concat with hnil | ⟨ys, y, hy⟩
      · subst hnil
        refine ⟨?_, ?_, ?_, ?_⟩ <;>
          simp [Chain.advance_back, Convert.advance_back, Convert.is_done, Convert.get,
            Chain.get, Chain.rem, Deque.advance_back, hd, Option.isNone]
      · have hy' : itb = ys ++ [y] := by simpa using hy
        subst hy'
        have hne : ys ++ [y] ≠ [] := by simp
        have hlast : (ys ++ [y]).getLast? = some y := List.getLast?_concat ys
        have hdrop : (ys ++ [y]).dropLast = ys := List.dropLast_concat
        have hlast2 : (ita ++ (ys ++ [y])).getLast? = some y := by
          rw [List.getLast?_append_of_ne_nil ita hne, hlast]
        have hdrop2 : (ita ++ (ys ++ [y])).dropLast = ita ++ ys := by
          rw [List.dropLast_append_of_ne_nil ita hne, hdrop]
        refine ⟨?_, ?_, ?_, ?_⟩ <;>
          simp [Chain.advance_back, Convert.advance_back, Convert.is_done, Convert.get,
            Chain.get, Chain.rem, Deque.advance_back, hd, Option.isNone, hlast, hdrop,
            hlast2, hdrop2]
  | Front =>
      have hb : itb = [] := hfront rfl
      have hd : d.l = ita := hrem.symm
      refine ⟨?_, ?_, ?_, ?_⟩ <;>
        simp [Chain.advance_back, Convert.advance_back, Convert.get, Chain.get,
          Chain.rem, Deque.advance_back, hd, hb]
  | Back =>
      have ha : ita = [] := hback rfl
      have hd : d.l = itb := hrem.symm
      refine ⟨?_, ?_, ?_, ?_⟩ <;>
        simp [Chain.advance_back, Convert.advance_back, Convert.get, Chain.get,
          Chain.rem, Deque.advance_back, hd, ha]

lemma ChainRel.step (dir : Bool) {s : Chain α} {d : Deque α} (h : ChainRel s d) :
    ChainRel (if dir then s.advance_back else s.advance)
      (if dir then d.advance_back else d.advance) := by
  cases dir
  · exact h.step_advance
  · exact h.step_advance_back

lemma ChainRel.trace (ds : List Bool) :
    ∀ {s : Chain α} {d : Deque α}, ChainRel s d →
      opTrace Chain.advance Chain.advance_back Chain.get ds s
        = opTrace Deque.advance Deque.advance_back Deque.get ds d ∧
      ChainRel (opRun Chain.advance Chain.advance_back ds s)
        (opRun Deque.advance Deque.advance_back ds d) := by
  induction ds with
  | nil => exact fun h => ⟨rfl, h⟩
  | cons dir ds ih =>
      intro s d h
      have hstep := h.step dir
      obtain ⟨ht, hr⟩ := ih hstep
      refine ⟨?_, hr⟩
      show Chain.get _ :: _ = Deque.get _ :: _
      rw [hstep.1, ht]
      rfl

lemma Deque.trace_forward (l : List α) :
    ∀ c, opTrace Deque.advance Deque.advance_back Deque.get
      (List.replicate l.length false) ⟨l, c⟩ = l.map some := by
  induction l with
  | nil => intro c; rfl
  | cons x xs ih =>
      intro c
      show some x :: opTrace Deque.advance Deque.advance_back Deque.get
        (List.replicate xs.length false) ⟨xs, some x⟩ = some x :: xs.map some
      rw [ih (some x)]

lemma Deque.trace_forward_done (l : List α) :
    ∀ c, opTrace Deque.advance Deque.advance_back Deque.get
      (List.replicate (l.length + 1) false) ⟨l, c⟩ = l.map some ++ [none] := by
  induction l with
  | nil => intro c; rfl
  | cons x xs ih =>
      intro c
      show some x :: opTrace Deque.advance Deque.advance_back Deque.get
        (List.replicate (xs.length + 1) false) ⟨xs, some x⟩ = some x :: (xs.map some ++ [none])
      rw [ih (some x)]

lemma Deque.trace_backward (l : List α) :
    ∀ c, opTrace Deque.advance Deque.advance_back Deque.get
      (List.replicate l.length true) ⟨l, c⟩ = l.reverse.map some := by
  induction l using List.reverseRecOn with
  | nil => intro c; rfl
  | append_singleton xs x ih =>
      intro c
      have hlen : (xs ++ [x]).length = xs.length + 1 := by simp
      rw [hlen]
      show (xs ++ [x]).getLast? :: opTrace Deque.advance Deque.advance_back Deque.get
          (List.replicate xs.length true) ⟨(xs ++ [x]).dropLast, (xs ++ [x]).getLast?⟩
        = (xs ++ [x]).reverse.map some
      rw [List.getLast?_concat xs, List.dropLast_concat, ih (some x)]
      simp

lemma Deque.run_advances (ds : List Bool) :
    ∀ (l : List α) c, l.length ≤ ds.length →
      (opRun Deque.advance Deque.advance_back ds ⟨l, c⟩).l = [] := by
  induction ds with
  | nil =>
      intro l c h
      have : l = [] := List.length_eq_zero.mp (Nat.le_zero.mp h)
      subst this
      rfl
  | cons d ds ih =>
      intro l c h
      show (opRun Deque.advance Deque.advance_back ds
        (if d then Deque.advance_back ⟨l, c⟩ else Deque.advance ⟨l, c⟩)).l = []
      cases d
      · show (opRun Deque.advance Deque.advance_back ds ⟨l.tail, l.head?⟩).l = []
        exact ih l.tail l.head? (by simp at h ⊢; omega)
      · show (opRun Deque.advance Deque.advance_back ds ⟨l.dropLast, l.getLast?⟩).l = []
        exact ih l.dropLast l.getLast? (by simp at h ⊢; omega)

lemma Deque.op_on_empty (c : Option α) (d : Bool) :
    ((if d then Deque.advance_back ⟨[], c⟩ else Deque.advance ⟨[], c⟩) : Deque α).cur = none := by
  cases d <;> rfl

lemma Deque.trace_subperm (ds : List Bool) :
    ∀ (l : List α) c,
      List.Subperm ((opTrace Deque.advance Deque.advance_back Deque.get ds ⟨l, c⟩).filterMap id) l := by
  induction ds with
  | nil => intro l c; exact List.nil_subperm
  | cons d ds ih =>
      intro l c
      cases d
      · cases l with
        | nil =>
            show List.Subperm ((none :: opTrace Deque.advance Deque.advance_back Deque.get
              ds ⟨[], none⟩).filterMap id) []
            exact ih [] none
        | cons x xs =>
            show List.Subperm ((some x :: opTrace Deque.advance Deque.advance_back Deque.get
              ds ⟨xs, some x⟩).filterMap id) (x :: xs)
            exact (List.subperm_cons x).mpr (ih xs (some x))
      · rcases l.eq_nil_or_concat with rfl | ⟨ys, y, hy⟩
        · show List.Subperm ((none :: opTrace Deque.advance Deque.advance_back Deque.get
            ds ⟨[], none⟩).filterMap id) []
          simpa using ih [] none
        · have hy' : l = ys ++ [y] := by simpa using hy
          subst hy'
          show List.Subperm (((ys ++ [y]).getLast? :: opTrace Deque.advance Deque.advance_back
            Deque.get ds ⟨(ys ++ [y]).dropLast, (ys ++ [y]).getLast?⟩).filterMap id) (ys ++ [y])
          rw [List.getLast?_concat ys, List.dropLast_concat]
          have hsub : List.Subperm
              (y :: (opTrace Deque.advance Deque.advance_back Deque.get ds ⟨ys, some y⟩).filterMap id)
              (y :: ys) := (List.subperm_cons y).mpr (ih ys (some y))
          exact hsub.trans (List.perm_append_singleton y ys).symm.subperm

lemma Deque.trace_perm (ds : List Bool) :
    ∀ (l : List α) c, l.length ≤ ds.length →
      List.Perm ((opTrace Deque.advance Deque.advance_back Deque.get ds ⟨l, c⟩).filterMap id) l := by
  induction ds with
  | nil =>
      intro l c h
      have : l = [] := List.length_eq_zero.mp (Nat.le_zero.mp h)
      subst this
      rfl
  | cons d ds ih =>
      intro l c h
      cases d
      · cases l with
        | nil =>
            show List.Perm ((none :: opTrace Deque.advance Deque.advance_back Deque.get
              ds ⟨[], none⟩).filterMap id) []
            exact ih [] none (by simp)
        | cons x xs =>
            show List.Perm ((some x :: opTrace Deque.advance Deque.advance_back Deque.get
              ds ⟨xs, some x⟩).filterMap id) (x :: xs)
            exact List.Perm.cons x (ih xs (some x) (by simp at h ⊢; omega))
      · rcases l.eq_nil_or_concat with rfl | ⟨ys, y, hy⟩
        · show List.Perm ((none :: opTrace Deque.advance Deque.advance_back Deque.get
            ds ⟨[], none⟩).filterMap id) []
          simpa using ih [] none (by simp)
        · have hy' : l = ys ++ [y] := by simpa using hy
          subst hy'
          show List.Perm (((ys ++ [y]).getLast? :: opTrace Deque.advance Deque.advance_back
            Deque.get ds ⟨(ys ++ [y]).dropLast, (ys ++ [y]).getLast?⟩).filterMap id) (ys ++ [y])
          rw [List.getLast?_concat ys, List.dropLast_concat]
          have hperm : List.Perm
              (y :: (opTrace Deque.advance Deque.advance_back Deque.get ds ⟨ys, some y⟩).filterMap id)
              (y :: ys) :=
            List.Perm.cons y (ih ys (some y) (by simp at h ⊢; omega))
          exact hperm.trans (List.perm_append_singleton y ys).symm

lemma Chain.des_nextTrace_eq (α : Type u) :
    ∀ (n : Nat) (s : Chain α),
      (Chain.des α).nextTrace s n
        = opTrace Chain.advance Chain.advance_back Chain.get (List.replicate n false) s := by
  intro n
  induction n with
  | zero => intro s; rfl
  | succ n ih =>
      intro s
      show s.advance.get :: (Chain.des α).nextTrace s.advance n = _
      rw [ih s.advance]
      rfl

lemma Chain.rev_des_nextTrace_eq (α : Type u) :
    ∀ (n : Nat) (s : Chain α),
      (Rev (Chain.des α)).nextTrace s n
        = opTrace Chain.advance Chain.advance_back Chain.get (List.replicate n true) s := by
  intro n
  induction n with
  | zero => intro s; rfl
  | succ n ih =>
      intro s
      show s.advance_back.get :: (Rev (Chain.des α)).nextTrace s.advance_back n = _
      rw [ih s.advance_back]
      rfl

/-- Claim C4: chaining sources of lengths a and b and driving forward via
next() yields exactly the a + b elements of A then B in order followed by
absent; wrapping the chain in Rev and driving via next() yields B reversed
followed by A reversed. -/
theorem c4_chain_concatenation {α : Type u} (la lb : List α) :
    (Chain.des α).nextTrace (chain la lb) (la.length + lb.length + 1)
      = (la ++ lb).map some ++ [none] ∧
    (Rev (Chain.des α)).nextTrace (chain la lb) (la.length + lb.length)
      = (lb.reverse ++ la.reverse).map some := by
  have hrel := ChainRel.init la lb
  have hlen : (la ++ lb).length = la.length + lb.length := List.length_append la lb
  constructor
  · rw [Chain.des_nextTrace_eq α (la.length + lb.length + 1) (chain la lb)]
    rw [(ChainRel.trace (List.replicate (la.length + lb.length + 1) false) hrel).1]
    rw [← hlen]
    exact Deque.trace_forward_done (la ++ lb) none
  · rw [Chain.rev_des_nextTrace_eq α (la.length + lb.length) (chain la lb)]
    rw [(ChainRel.trace (List.replicate (la.length + lb.length) true) hrel).1]
    rw [← hlen]
    rw [Deque.trace_backward (la ++ lb) none]
    rw [List.reverse_append]

/-- Claim C5: over any interleaving of advance and advance_back on a chain
of two finite sources, the present observations never repeat an element
(they form a sub-permutation of the a + b elements); as soon as the
interleaving is at least a + b operations long they are a permutation of
all a + b elements, each yielded exactly once across the two directions,
and any further advance or advance_back leaves get() absent. -/
theorem c5_chain_interleaving {α : Type u} (la lb : List α) (ds : List Bool) :
    List.Subperm
      ((opTrace Chain.advance Chain.advance_back Chain.get ds (chain la lb)).filterMap id)
      (la ++ lb) ∧
    (la.length + lb.length ≤ ds.length →
      List.Perm
        ((opTrace Chain.advance Chain.advance_back Chain.get ds (chain la lb)).filterMap id)
        (la ++ lb)) ∧
    (la.length + lb.length ≤ ds.length → ∀ dir : Bool,
      Chain.get (if dir
        then Chain.advance_back (opRun Chain.advance Chain.advance_back ds (chain la lb))
        else Chain.advance (opRun Chain.advance Chain.advance_back ds (chain la lb))) = none) := by
  have hrel := ChainRel.init la lb
  have htr := ChainRel.trace ds hrel
  have hlen : (la ++ lb).length = la.length + lb.length := List.length_append la lb
  refine ⟨?_, ?_, ?_⟩
  · rw [htr.1]
    exact Deque.trace_subperm ds (la ++ lb) none
  · intro h
    rw [htr.1]
    exact Deque.trace_perm ds (la ++ lb) none (by omega)
  · intro h dir
    have hrun := htr.2
    have hempty : (opRun Deque.advance Deque.advance_back ds ⟨la ++ lb, none⟩).l = [] :=
      Deque.run_advances ds (la ++ lb) none (by omega)
    have hstep := hrun.step dir
    rw [hstep.1]
    rcases hq : opRun Deque.advance Deque.advance_back ds ⟨la ++ lb, none⟩ with ⟨lq, cq⟩
    rw [hq] at hempty
    have hlq : lq = [] := hempty
    subst hlq
    exact Deque.op_on_empty cq dir

/-- Witness for C5 at a concrete input. -/
theorem c5_chain_interleaving_witness :
    List.Perm
      ((opTrace Chain.advance Chain.advance_back Chain.get [true, false, true]
        (chain [1, 2] [3])).filterMap id)
      ([1, 2] ++ [3]) ∧
    Chain.get (Chain.advance (opRun Chain.advance Chain.advance_back [true, false, true]
      (chain [1, 2] [3]))) = none := by
  have h := c5_chain_interleaving [1, 2] [3] [true, false, true]
  exact ⟨h.2.1 (by decide), by simpa using h.2.2 (by decide) false⟩

/-- WindowsMut::next override: advance then get_front. -/
def WindowsMut.next (s : WindowsMut α) : WindowsMut α × Option (List α) :=
  (s.advance, s.advance.get_front)

/-- Driver: repeatedly call next() and collect the produced windows until
the first absent result; fuel bounds the iteration. -/
def collectWins : Nat → WindowsMut α → List (List α)
  | 0, _ => []
  | fuel + 1, s =>
      match WindowsMut.next s with
      | (_, none) => []
      | (s', some w) => w :: collectWins fuel s'

/-- A fresh windows_mut state (what windows_mut returns for nonzero size). -/
def wmFresh (b : List α) (size : Nat) : WindowsMut α :=
  { left := [], slice := b, right := [], size := size, position := WPosition.Init }



lemma collectWins_succ (fuel : Nat) (s : WindowsMut α) :
    collectWins (fuel + 1) s =
      match s.advance.get_front with
      | none => []
      | some w => w :: collectWins fuel s.advance := by
  cases hw : s.advance.get_front <;> simp [collectWins, WindowsMut.next, hw]

lemma collectWins_front (size : Nat) (hsz : 1 ≤ size) :
    ∀ (fuel : Nat) (sl left : List α), sl.length ≤ fuel →
      collectWins fuel (⟨left, sl, [], size, WPosition.Front⟩ : WindowsMut α)
        = (List.range (sl.length - size)).map fun k => (sl.drop (k + 1)).take size := by
  intro fuel
  induction fuel with
  | zero =>
      intro sl left h
      have hsl : sl = [] := List.length_eq_zero.mp (Nat.le_zero.mp h)
      subst hsl
      simp [collectWins]
  | succ fuel ih =>
      intro sl left h
      rw [collectWins_succ]
      cases sl with
      | nil =>
          have hg : (WindowsMut.advance (⟨left, [], [], size, WPosition.Front⟩ : WindowsMut α)).get_front = none := by
            unfold WindowsMut.get_front
            simp [WindowsMut.advance, WindowsMut.consume]
            omega
          rw [hg]
          simp
      | cons x tail =>
          have hadv : WindowsMut.advance (⟨left, x :: tail, [], size, WPosition.Front⟩ : WindowsMut α)
              = ⟨left ++ [x], tail, [], size, WPosition.Front⟩ := rfl
          rcases Nat.lt_or_ge tail.length size with hlt | hge
          · have hg : (WindowsMut.advance (⟨left, x :: tail, [], size, WPosition.Front⟩ : WindowsMut α)).get_front = none := by
              rw [hadv]
              unfold WindowsMut.get_front
              simp only
              rw [if_neg (by omega)]
            rw [hg]
            have hr : (x :: tail).length - size = 0 := by simp; omega
            rw [hr]
            simp
          · have hg : (WindowsMut.advance (⟨left, x :: tail, [], size, WPosition.Front⟩ : WindowsMut α)).get_front
                = some (tail.take size) := by
              rw [hadv]
              unfold WindowsMut.get_front
              simp only
              rw [if_pos (by omega)]
            rw [hg]
            show tail.take size :: collectWins fuel _ = _
            rw [hadv, ih tail (left ++ [x]) (by simp at h; omega)]
            have hlen : (x :: tail).length - size = (tail.length - size) + 1 := by
              simp
              omega
            rw [hlen, List.range_succ_eq_map, List.map_cons, List.map_map]
            rfl

lemma collectWins_fresh (b : List α) (size : Nat) (hsz : 1 ≤ size) :
    collectWins (b.length + 1) (wmFresh b size)
      = (List.range (b.length + 1 - size)).map fun i => (b.drop i).take size := by
  rw [collectWins_succ]
  have hadv : (wmFresh b size).advance = (⟨[], b, [], size, WPosition.Front⟩ : WindowsMut α) := rfl
  rcases Nat.lt_or_ge b.length size with hlt | hge
  · have hg : ((wmFresh b size).advance).get_front = none := by
      rw [hadv]
      unfold WindowsMut.get_front
      simp only
      rw [if_neg (by omega)]
    rw [hg]
    have hr : b.length + 1 - size = 0 := by omega
    rw [hr]
    simp
  · have hg : ((wmFresh b size).advance).get_front = some (b.take size) := by
      rw [hadv]
      unfold WindowsMut.get_front
      simp only
      rw [if_pos (by omega)]
    rw [hg]
    show b.take size :: collectWins b.length _ = _
    rw [hadv, collectWins_front size hsz b.length b [] (Nat.le_refl _)]
    have hlen : b.length + 1 - size = (b.length - size) + 1 := by omega
    rw [hlen, List.range_succ_eq_map, List.map_cons, List.map_map]
    rfl

/-- Overwrite the length w positions of b starting at position i. -/
def refWrite (b : List α) (i : Nat) (w : List α) : List α :=
  b.take i ++ w ++ b.drop (i + w.length)

/-- The reference result of the forward write pass of claim C3: window i is
overwritten with ws i, for i from 0 to the window count, sequentially. -/
def refAll (ws : Nat → List α) (size : Nat) (b : List α) : List α :=
  (List.range (b.length + 1 - size)).foldl (fun acc i => refWrite acc i (ws i)) b

/-- The remaining write pass relative to a Front-positioned slice sl: the
next window starts one past the front, window indices start at i. -/
def refFront (ws : Nat → List α) (size i : Nat) (sl : List α) : List α :=
  (List.range (sl.length - size)).foldl (fun acc k => refWrite acc (k + 1) (ws (i + k))) sl

/-- Driver for claim C3: repeatedly advance, and as long as get_mut is
present overwrite the whole window with ws i (i the running window index). -/
def writeLoop (ws : Nat → List α) : Nat → Nat → WindowsMut α → WindowsMut α
  | 0, _, s => s
  | fuel + 1, i, s =>
      match s.advance.get_front with
      | none => s.advance
      | some _ => writeLoop ws fuel (i + 1) (s.advance.write_front (ws i))

lemma refWrite_cons (x : α) (l : List α) (k : Nat) (w : List α) :
    refWrite (x :: l) (k + 1) w = x :: refWrite l k w := by
  unfold refWrite
  rw [List.take_succ_cons]
  have : (k + 1) + w.length = (k + w.length) + 1 := by omega
  rw [this, List.drop_succ_cons]
  rfl

lemma foldl_refWrite_cons (g : Nat → List α) (idxs : List Nat) :
    ∀ (x : α) (l : List α),
      List.foldl (fun acc k => refWrite acc (k + 2) (g k)) (x :: l) idxs
        = x :: List.foldl (fun acc k => refWrite acc (k + 1) (g k)) l idxs := by
  induction idxs with
  | nil => intro x l; rfl
  | cons j rest ih =>
      intro x l
      show List.foldl _ (refWrite (x :: l) (j + 2) (g j)) rest = _
      rw [refWrite_cons x l (j + 1) (g j), ih]
      rfl

lemma refFront_stop (ws : Nat → List α) (size i : Nat) (sl : List α)
    (h : sl.length ≤ size) : refFront ws size i sl = sl := by
  unfold refFront
  have : sl.length - size = 0 := by omega
  rw [this]
  rfl

lemma refFront_cons (ws : Nat → List α) (size i : Nat) (x : α) (tail : List α)
    (hge : size ≤ tail.length) (hw : (ws i).length = size) :
    refFront ws size i (x :: tail)
      = x :: refFront ws size (i + 1) (ws i ++ tail.drop size) := by
  unfold refFront
  have hlen : (x :: tail).length - size = (tail.length - size) + 1 := by
    simp
    omega
  rw [hlen, List.range_succ_eq_map]
  show List.foldl _ (refWrite (x :: tail) (0 + 1) (ws (i + 0))) _ = _
  have h0 : refWrite (x :: tail) (0 + 1) (ws (i + 0)) = x :: (ws i ++ tail.drop size) := by
    rw [refWrite_cons]
    unfold refWrite
    rw [Nat.add_zero i, hw]
    simp
  rw [h0, List.foldl_map]
  have harms : (fun (acc : List α) (k : Nat) => refWrite acc (k + 1 + 1) (ws (i + (k + 1))))
      = fun acc k => refWrite acc (k + 2) (ws (i + 1 + k)) := by
    funext acc k
    have h1 : k + 1 + 1 = k + 2 := by omega
    have h2 : i + (k + 1) = i + 1 + k := by omega
    rw [h1, h2]
  rw [harms, foldl_refWrite_cons]
  have htl : (ws i ++ tail.drop size).length - size = tail.length - size := by
    simp
    omega
  rw [htl]

lemma writeLoop_front (ws : Nat → List α) (size : Nat) (hsz : 1 ≤ size)
    (hws : ∀ j, (ws j).length = size) :
    ∀ (fuel : Nat) (sl left : List α) (i : Nat), sl.length ≤ fuel →
      (writeLoop ws fuel i (⟨left, sl, [], size, WPosition.Front⟩ : WindowsMut α)).buffer
        = left ++ refFront ws size i sl := by
  intro fuel
  induction fuel with
  | zero =>
      intro sl left i h
      have hsl : sl = [] := List.length_eq_zero.mp (Nat.le_zero.mp h)
      subst hsl
      show (⟨left, [], [], size, WPosition.Front⟩ : WindowsMut α).buffer = _
      rw [refFront_stop ws size i [] (by simp)]
      simp [WindowsMut.buffer]
  | succ fuel ih =>
      intro sl left i h
      cases sl with
      | nil =>
          have hadv : (⟨left, [], [], size, WPosition.Front⟩ : WindowsMut α).advance
              = ⟨left, [], [], size, WPosition.Front⟩ := rfl
          have hg : ((⟨left, [], [], size, WPosition.Front⟩ : WindowsMut α).advance).get_front = none := by
            rw [hadv]
            unfold WindowsMut.get_front
            simp only
            rw [if_neg (by simp; omega)]
          show (match ((⟨left, [], [], size, WPosition.Front⟩ : WindowsMut α).advance).get_front with
            | none => (⟨left, [], [], size, WPosition.Front⟩ : WindowsMut α).advance
            | some _ => writeLoop ws fuel (i + 1)
                (((⟨left, [], [], size, WPosition.Front⟩ : WindowsMut α).advance).write_front (ws i))).buffer = _
          rw [hg, hadv, refFront_stop ws size i [] (by simp)]
          simp [WindowsMut.buffer]
      | cons x tail =>
          have hadv : (⟨left, x :: tail, [], size, WPosition.Front⟩ : WindowsMut α).advance
              = ⟨left ++ [x], tail, [], size, WPosition.Front⟩ := rfl
          show (match ((⟨left, x :: tail, [], size, WPosition.Front⟩ : WindowsMut α).advance).get_front with
            | none => (⟨left, x :: tail, [], size, WPosition.Front⟩ : WindowsMut α).advance
            | some _ => writeLoop ws fuel (i + 1)
                (((⟨left, x :: tail, [], size, WPosition.Front⟩ : WindowsMut α).advance).write_front (ws i))).buffer = _
          rcases Nat.lt_or_ge tail.length size with hlt | hge
          · have hg : ((⟨left, x :: tail, [], size, WPosition.Front⟩ : WindowsMut α).advance).get_front = none := by
              rw [hadv]
              unfold WindowsMut.get_front
              simp only
              rw [if_neg (by omega)]
            rw [hg, hadv, refFront_stop ws size i (x :: tail) (by simp; omega)]
            simp [WindowsMut.buffer]
          · have hg : ((⟨left, x :: tail, [], size, WPosition.Front⟩ : WindowsMut α).advance).get_front
                = some (tail.take size) := by
              rw [hadv]
              unfold WindowsMut.get_front
              simp only
              rw [if_pos (by omega)]
            rw [hg, hadv]
            have hwr : (⟨left ++ [x], tail, [], size, WPosition.Front⟩ : WindowsMut α).write_front (ws i)
                = ⟨left ++ [x], ws i ++ tail.drop size, [], size, WPosition.Front⟩ := rfl
            rw [hwr]
            have hlen2 : (ws i ++ tail.drop size).length = tail.length := by
              rw [List.length_append, hws i, List.length_drop]
              omega
            rw [ih (ws i ++ tail.drop size) (left ++ [x]) (i + 1) (by rw [hlen2]; simp at h; omega)]
            rw [refFront_cons ws size i x tail hge (hws i)]
            simp

lemma writeLoop_fresh (ws : Nat → List α) (size : Nat) (b : List α) (hsz : 1 ≤ size)
    (hws : ∀ j, (ws j).length = size) :
    (writeLoop ws (b.length + 1) 0 (wmFresh b size)).buffer = refAll ws size b := by
  have hadv : (wmFresh b size).advance = (⟨[], b, [], size, WPosition.Front⟩ : WindowsMut α) := rfl
  show (match ((wmFresh b size).advance).get_front with
    | none => (wmFresh b size).advance
    | some _ => writeLoop ws b.length 1 (((wmFresh b size).advance).write_front (ws 0))).buffer = _
  rcases Nat.lt_or_ge b.length size with hlt | hge
  · have hg : ((wmFresh b size).advance).get_front = none := by
      rw [hadv]
      unfold WindowsMut.get_front
      simp only
      rw [if_neg (by omega)]
    rw [hg, hadv]
    unfold refAll
    have hr : b.length + 1 - size = 0 := by omega
    rw [hr]
    simp [WindowsMut.buffer]
  · have hg : ((wmFresh b size).advance).get_front = some (b.take size) := by
      rw [hadv]
      unfold WindowsMut.get_front
      simp only
      rw [if_pos (by omega)]
    rw [hg, hadv]
    have hwr : (⟨[], b, [], size, WPosition.Front⟩ : WindowsMut α).write_front (ws 0)
        = ⟨[], ws 0 ++ b.drop size, [], size, WPosition.Front⟩ := rfl
    rw [hwr]
    have hlen0 : (ws 0 ++ b.drop size).length = b.length := by
      rw [List.length_append, hws 0, List.length_drop]
      omega
    rw [writeLoop_front ws size hsz hws b.length (ws 0 ++ b.drop size) [] 1 (by omega)]
    unfold refAll
    have hn : b.length + 1 - size = (b.length - size) + 1 := by omega
    rw [hn, List.range_succ_eq_map]
    show _ = List.foldl _ (refWrite b 0 (ws 0)) _
    have h0 : refWrite b 0 (ws 0) = ws 0 ++ b.drop size := by
      unfold refWrite
      rw [hws 0]
      simp
    rw [h0, List.foldl_map]
    unfold refFront
    rw [hlen0]
    have harms : (fun (acc : List α) (k : Nat) => refWrite acc (k + 1) (ws (k + 1)))
        = fun acc k => refWrite acc (k + 1) (ws (1 + k)) := by
      funext acc k
      rw [Nat.add_comm k 1]
    rw [harms]
    have hm : b.length - size = (ws 0 ++ b.drop size).length - size := by
      rw [hlen0]
    simp

/-- Claim C3: for a buffer of length L and window size at least 1, the
forward pass of windows_mut yields exactly L + 1 - size windows (0 when the
buffer is shorter than the window), the i-th being buffer[i..i+size], hence
each of length size with consecutive windows overlapping in size - 1
elements; and a forward pass overwriting window i with ws i through get_mut
leaves the caller's buffer equal to applying those writes at positions
i..i+size in order. -/
theorem c3_windows_mut_forward {α : Type u} (b : List α) (size : Nat)
    (ws : Nat → List α) (hsz : 1 ≤ size) (hws : ∀ j, (ws j).length = size) :
    windows_mut b size = some (wmFresh b size) ∧
    collectWins (b.length + 1) (wmFresh b size)
      = (List.range (b.length + 1 - size)).map (fun i => (b.drop i).take size) ∧
    (∀ i, i < b.length + 1 - size → ((b.drop i).take size).length = size) ∧
    (∀ i, i + 1 < b.length + 1 - size →
      ((b.drop i).take size).drop 1 = ((b.drop (i + 1)).take size).take (size - 1)) ∧
    (writeLoop ws (b.length + 1) 0 (wmFresh b size)).buffer = refAll ws size b := by
  refine ⟨?_, collectWins_fresh b size hsz, ?_, ?_, writeLoop_fresh ws size b hsz hws⟩
  · unfold windows_mut wmFresh
    rw [if_neg (by omega)]
  · intro i hi
    rw [List.length_take, List.length_drop]
    omega
  · intro i hi
    rw [List.drop_take, List.take_take]
    have h1 : (b.drop i).drop 1 = b.drop (i + 1) := by
      rw [List.drop_drop]
      try rw [Nat.add_comm 1 i]
    rw [h1]
    have h2 : min (size - 1) size = size - 1 := by omega
    rw [h2]

/-- Witness for C3: the spec scenario, buffer [0,0,0,0,0,0] with size-3
windows overwritten by their window index. -/
theorem c3_windows_mut_forward_witness :
    collectWins 7 (wmFresh ([0, 0, 0, 0, 0, 0] : List Nat) 3)
      = [[0, 0, 0], [0, 0, 0], [0, 0, 0], [0, 0, 0]] ∧
    (writeLoop (fun i => [i, i, i]) 7 0 (wmFresh ([0, 0, 0, 0, 0, 0] : List Nat) 3)).buffer
      = [0, 1, 2, 3, 3, 3] := by
  have h := c3_windows_mut_forward ([0, 0, 0, 0, 0, 0] : List Nat) 3 (fun i => [i, i, i])
    (by omega) (fun j => rfl)
  constructor
  · rw [show (7 : Nat) = [0, 0, 0, 0, 0, 0].length + 1 from rfl, h.2.1]
    decide
  · rw [show (7 : Nat) = [0, 0, 0, 0, 0, 0].length + 1 from rfl, h.2.2.2.2]
    decide

/-- Convert::fold_mut: like Convert::fold it delegates to the wrapped
iterator's fold, ignoring the current-item slot; in the pure embedding the
closure receives the element value. -/
def Convert.fold_mut (s : Convert σ) (init : β) (f : β → σ → β) : β :=
  s.it.foldl f init

/-- State of the Flatten combinator, over an outer Convert whose elements
are inner Convert iterators. -/
structure Flatten (α : Type u) where
  iter : Convert (Convert α)
  first : Bool

/-- StreamingIteratorMut::flatten constructor: first = true. -/
def flattenOf (ls : List (Convert α)) : Flatten α :=
  { iter := convert ls, first := true }

/-- The while-let loop of Flatten::advance: while the outer slot holds an
inner iterator, advance it in place, stop when it is not done, otherwise
advance the outer and retry.  Fuel bounds the loop; each retry consumes one
element of the outer iterator, so outer.it.length + 1 suffices. -/
def Flatten.advanceGo : Nat → Convert (Convert α) → Convert (Convert α)
  | 0, outer => outer
  | fuel + 1, outer =>
      match outer.item with
      | none => outer
      | some inner =>
          let inner' := inner.advance
          let outer' := { outer with item := some inner' }
          if inner'.is_done then Flatten.advanceGo fuel outer'.advance else outer'

/-- Flatten::advance: the first advance also advances the outer iterator
once, then the retry loop runs. -/
def Flatten.advance (s : Flatten α) : Flatten α :=
  let outer := if s.first then s.iter.advance else s.iter
  { iter := Flatten.advanceGo (outer.it.length + 1) outer, first := false }

/-- Flatten::get: self.iter.get().and_then(get). -/
def Flatten.get (s : Flatten α) : Option α :=
  s.iter.item.bind Convert.get

/-- Flatten::is_done: done iff the outer slot is empty or holds a done
inner iterator. -/
def Flatten.is_done (s : Flatten α) : Bool :=
  match s.iter.item with
  | some inner => inner.is_done
  | none => true

/-- StreamingIterator::next default for Flatten (not overridden):
advance then get. -/
def Flatten.next (s : Flatten α) : Flatten α × Option α :=
  (s.advance, s.advance.get)

/-- Flatten::fold override: self.iter.fold_mut(init, |acc, item|
item.fold(acc, fold)); the inner fold is the default fold of the mutable
borrow, which for a Convert folds exactly its unconsumed elements, the same
elements Convert::fold folds. -/
def Flatten.fold (s : Flatten α) (init : β) (f : β → α → β) : β :=
  Convert.fold_mut s.iter init fun acc inner => Convert.fold inner acc f

/-- The default StreamingIterator::fold body, driven by repeated next()
calls, with fuel; it stops at the first absent next() result. -/
def genericFold (next : σ → σ × Option α) : Nat → σ → β → (β → α → β) → β
  | 0, _, acc, _ => acc
  | fuel + 1, s, acc, f =>
      match next s with
      | (_, none) => acc
      | (s', some x) => genericFold next fuel s' (f acc x) f

/-- Claim C7 (refuted by the code): Flatten::fold is not observably
equivalent to the generic default fold in every reachable state.  After one
next() on flatten(convert [convert [1,2], convert [3]]), which yields 1, the
override folds only [3] while the default fold driven by next() folds
[2, 3]: the override drops the unconsumed remainder of the inner iterator
sitting in the outer iterator's current slot (FlatMap::fold folds its
sub_iter field first; Flatten::fold has no analogous step). -/
theorem c7_flatten_fold_override_divergence :
    (Flatten.next (flattenOf [convert [1, 2], convert [3]])).2 = some 1 ∧
    Flatten.fold (Flatten.next (flattenOf [convert [1, 2], convert [3]])).1
      [] (fun acc x => acc ++ [x]) = [3] ∧
    genericFold Flatten.next 10 (Flatten.next (flattenOf [convert [1, 2], convert [3]])).1
      [] (fun acc x => acc ++ [x]) = [2, 3] ∧
    genericFold Flatten.next 50 (Flatten.next (flattenOf [convert [1, 2], convert [3]])).1
      [] (fun acc x => acc ++ [x]) = [2, 3] := by
  refine ⟨rfl, rfl, rfl, rfl⟩

/-- Once's inherited default is_done. -/
def Once.is_done (s : Once α) : Bool :=
  s.get.isNone

/-- OnceWith's inherited default is_done. -/
def OnceWith.is_done (s : OnceWith α) : Bool :=
  s.get.isNone

/-- Successors' inherited default is_done. -/
def Successors.is_done (s : Successors α) : Bool :=
  s.get.isNone


/-- An abstract peek-only view of a streaming cursor: the two observation
methods that a delegating adapter's is_done and get consult on the wrapped
iterator.  The adapters below are generic over the wrapped cursor exactly as
the Rust impls are generic over I: StreamingIterator, so they apply to any
upstream, including a WindowsMut. -/
structure PeekCursor (σ : Type u) (α : Type v) where
  get : σ → Option α
  is_done : σ → Bool

/-- WindowsMut viewed through its get and is_done methods. -/
def WindowsMut.cursor (α : Type u) : PeekCursor (WindowsMut α) (List α) :=
  { get := WindowsMut.get, is_done := WindowsMut.is_done }

/-- State of sources::Empty, a phantom-typed unit struct. -/
structure EmptyS (α : Type u) where
  unit : Unit

/-- Empty::get: always absent. -/
def EmptyS.get (_ : EmptyS α) : Option α :=
  none

/-- Empty's inherited default is_done. -/
def EmptyS.is_done (s : EmptyS α) : Bool :=
  s.get.isNone

/-- State of sources::ConvertRef: like Convert, the wrapped iterator of
references is modelled as the list of elements not yet produced, plus the
republished reference slot. -/
structure ConvertRef (α : Type u) where
  it : List α
  item : Option α

/-- ConvertRef::get. -/
def ConvertRef.get (s : ConvertRef α) : Option α :=
  s.item

/-- ConvertRef's inherited default is_done. -/
def ConvertRef.is_done (s : ConvertRef α) : Bool :=
  s.get.isNone

/-- State of sources::ConvertMut, same shape as ConvertRef. -/
structure ConvertMut (α : Type u) where
  it : List α
  item : Option α

/-- ConvertMut::get. -/
def ConvertMut.get (s : ConvertMut α) : Option α :=
  s.item

/-- ConvertMut's inherited default is_done. -/
def ConvertMut.is_done (s : ConvertMut α) : Bool :=
  s.get.isNone

/-- State of the Repeat source. -/
structure Repeat (α : Type u) where
  item : α

/-- Repeat::get: always present. -/
def Repeat.get (s : Repeat α) : Option α :=
  some s.item

/-- Repeat's inherited default is_done. -/
def Repeat.is_done (s : Repeat α) : Bool :=
  s.get.isNone

/-- State of the FromFn source: the FnMut closure is modelled by a pure
function of its call count. -/
structure FromFn (α : Type u) where
  gen : Nat → Option α
  calls : Nat
  item : Option α

/-- FromFn::get. -/
def FromFn.get (s : FromFn α) : Option α :=
  s.item

/-- FromFn's inherited default is_done. -/
def FromFn.is_done (s : FromFn α) : Bool :=
  s.get.isNone

/-- State of the RepeatWith source: the FnMut closure is modelled by a pure
function of its call count. -/
structure RepeatWith (α : Type u) where
  gen : Nat → α
  calls : Nat
  item : Option α

/-- RepeatWith::get. -/
def RepeatWith.get (s : RepeatWith α) : Option α :=
  s.item

/-- RepeatWith's inherited default is_done. -/
def RepeatWith.is_done (s : RepeatWith α) : Bool :=
  s.get.isNone

/-- State of the Filter combinator over an arbitrary wrapped cursor state σ
(named FilterS because the name Filter is already taken in scope); the
predicate is modelled as pure. -/
structure FilterS (σ : Type u) (α : Type v) where
  it : σ
  f : α → Bool

/-- Filter::get: delegate to the wrapped cursor. -/
def FilterS.get (up : PeekCursor σ α) (s : FilterS σ α) : Option α :=
  up.get s.it

/-- Filter::is_done override: delegate to the wrapped cursor. -/
def FilterS.is_done (up : PeekCursor σ α) (s : FilterS σ α) : Bool :=
  up.is_done s.it

/-- State of the FilterMap combinator over an arbitrary wrapped cursor. -/
structure FilterMap (σ : Type u) (α : Type v) (β : Type w) where
  it : σ
  f : α → Option β
  item : Option β

/-- FilterMap::get: the cached item. -/
def FilterMap.get (s : FilterMap σ α β) : Option β :=
  s.item

/-- FilterMap's inherited default is_done. -/
def FilterMap.is_done (s : FilterMap σ α β) : Bool :=
  s.get.isNone

/-- State of the Map combinator over an arbitrary wrapped cursor. -/
structure Map (σ : Type u) (α : Type v) (β : Type w) where
  it : σ
  f : α → β
  item : Option β

/-- Map::get: the cached item. -/
def Map.get (s : Map σ α β) : Option β :=
  s.item

/-- Map's inherited default is_done. -/
def Map.is_done (s : Map σ α β) : Bool :=
  s.get.isNone

/-- State of the FlatMap combinator over an arbitrary outer cursor state σ
and arbitrary sub-iterator state τ. -/
structure FlatMap (σ : Type u) (τ : Type u) (α : Type v) (β : Type w) where
  it : σ
  f : β → τ
  sub_iter : Option τ

/-- FlatMap::get: self.sub_iter.as_ref().and_then(get). -/
def FlatMap.get (J : PeekCursor τ α) (s : FlatMap σ τ α β) : Option α :=
  s.sub_iter.bind J.get

/-- FlatMap::is_done override: done iff no sub-iterator or a done one. -/
def FlatMap.is_done (J : PeekCursor τ α) (s : FlatMap σ τ α β) : Bool :=
  match s.sub_iter with
  | some iter => J.is_done iter
  | none => true

/-- State of the Inspect combinator over an arbitrary wrapped cursor; the
side-effecting closure has no observable value in the pure embedding. -/
structure Inspect (σ : Type u) (α : Type v) where
  it : σ
  f : α → Unit

/-- Inspect::get: delegate. -/
def Inspect.get (up : PeekCursor σ α) (s : Inspect σ α) : Option α :=
  up.get s.it

/-- Inspect::is_done override: delegate. -/
def Inspect.is_done (up : PeekCursor σ α) (s : Inspect σ α) : Bool :=
  up.is_done s.it

/-- State of the MapRef combinator over an arbitrary wrapped cursor. -/
structure MapRef (σ : Type u) (α : Type v) (β : Type w) where
  it : σ
  f : α → β

/-- MapRef::get: self.it.get().map(f). -/
def MapRef.get (up : PeekCursor σ α) (s : MapRef σ α β) : Option β :=
  (up.get s.it).map s.f

/-- MapRef::is_done override: delegate. -/
def MapRef.is_done (up : PeekCursor σ α) (s : MapRef σ α β) : Bool :=
  up.is_done s.it

/-- State of the Skip combinator over an arbitrary wrapped cursor. -/
structure Skip (σ : Type u) where
  it : σ
  n : Nat

/-- Skip::get: delegate. -/
def Skip.get (up : PeekCursor σ α) (s : Skip σ) : Option α :=
  up.get s.it

/-- Skip::is_done override: delegate. -/
def Skip.is_done (up : PeekCursor σ α) (s : Skip σ) : Bool :=
  up.is_done s.it

/-- State of the SkipWhile combinator over an arbitrary wrapped cursor. -/
structure SkipWhile (σ : Type u) (α : Type v) where
  it : σ
  f : α → Bool
  done : Bool

/-- SkipWhile::get: delegate. -/
def SkipWhile.get (up : PeekCursor σ α) (s : SkipWhile σ α) : Option α :=
  up.get s.it

/-- SkipWhile::is_done override: delegate. -/
def SkipWhile.is_done (up : PeekCursor σ α) (s : SkipWhile σ α) : Bool :=
  up.is_done s.it

/-- State of the Take combinator over an arbitrary wrapped cursor. -/
structure Take (σ : Type u) where
  it : σ
  n : Nat
  done : Bool

/-- Take::get: absent once done, else delegate. -/
def Take.get (up : PeekCursor σ α) (s : Take σ) : Option α :=
  if s.done then none else up.get s.it

/-- Take::is_done override: self.done || self.it.is_done(). -/
def Take.is_done (up : PeekCursor σ α) (s : Take σ) : Bool :=
  s.done || up.is_done s.it

/-- State of the TakeWhile combinator over an arbitrary wrapped cursor. -/
structure TakeWhile (σ : Type u) (α : Type v) where
  it : σ
  f : α → Bool
  done : Bool

/-- TakeWhile::get: absent once done, else delegate. -/
def TakeWhile.get (up : PeekCursor σ α) (s : TakeWhile σ α) : Option α :=
  if s.done then none else up.get s.it

/-- TakeWhile::is_done override: self.done || self.it.is_done(). -/
def TakeWhile.is_done (up : PeekCursor σ α) (s : TakeWhile σ α) : Bool :=
  s.done || up.is_done s.it

/-- State of the Chain combinator over two arbitrary wrapped cursors; the
Chain structure used for claims C4 and C5 is this one with both components
fixed to Convert. -/
structure ChainGen (σa : Type u) (σb : Type u) where
  a : σa
  b : σb
  state : ChainState

/-- Chain::get, generic: delegate to whichever component is active. -/
def ChainGen.get (A : PeekCursor σa α) (B : PeekCursor σb α) (s : ChainGen σa σb) : Option α :=
  match s.state with
  | ChainState.BothForward | ChainState.Front => A.get s.a
  | ChainState.BothBackward | ChainState.Back => B.get s.b

/-- Chain::is_done override, generic: delegate to the active component. -/
def ChainGen.is_done (A : PeekCursor σa α) (B : PeekCursor σb α) (s : ChainGen σa σb) : Bool :=
  match s.state with
  | ChainState.BothForward | ChainState.Front => A.is_done s.a
  | ChainState.BothBackward | ChainState.Back => B.is_done s.b

/-- State of the Flatten combinator over an arbitrary outer cursor whose
items are themselves cursor states; the Flatten structure used for claim C7
is this one with the outer fixed to Convert (Convert α). -/
structure FlattenGen (σ : Type u) where
  iter : σ
  first : Bool

/-- Flatten::get, generic: self.iter.get().and_then(get). -/
def FlattenGen.get (outer : PeekCursor σ τ) (inner : PeekCursor τ α) (s : FlattenGen σ) : Option α :=
  (outer.get s.iter).bind inner.get

/-- Flatten::is_done override, generic: done iff the outer slot is empty or
holds a done inner iterator. -/
def FlattenGen.is_done (outer : PeekCursor σ τ) (inner : PeekCursor τ α) (s : FlattenGen σ) : Bool :=
  match outer.get s.iter with
  | some iter => inner.is_done iter
  | none => true

/-- Fuse::is_done override: true in Start and End, false in Middle,
independently of the upstream. -/
def Fuse.is_done : σ × FuseState → Bool
  | (_, FuseState.Start) => true
  | (_, FuseState.Middle) => false
  | (_, FuseState.End) => true

/-- An abstract streaming cursor with the four methods Fuse consults:
advance, get, is_done and the (possibly overridden) next. -/
structure StepCursor (σ : Type u) (α : Type v) where
  advance : σ → σ
  get : σ → Option α
  is_done : σ → Bool
  next : σ → σ × Option α

/-- The Source view of a StepCursor (its next and get methods). -/
def StepCursor.src (up : StepCursor σ α) : Source σ α :=
  { next := up.next, get := up.get }

/-- The fused get over an abstract upstream. -/
def FuseGen.get (up : StepCursor σ α) : σ × FuseState → Option α :=
  Fuse.get up.src

/-- Fuse::advance over an abstract upstream: advance the upstream and move
to End exactly when it then reports done, to Middle otherwise; in End the
upstream is never touched again. -/
def FuseGen.advance (up : StepCursor σ α) : σ × FuseState → σ × FuseState
  | (u, FuseState.Start) =>
      let u' := up.advance u
      (u', if up.is_done u' then FuseState.End else FuseState.Middle)
  | (u, FuseState.Middle) =>
      let u' := up.advance u
      (u', if up.is_done u' then FuseState.End else FuseState.Middle)
  | (u, FuseState.End) => (u, FuseState.End)

/-- The states of a fused cursor reachable from a fresh fuse() of any
upstream state, closed under advance and under the overridden next. -/
inductive FuseReachG {σ : Type u} {α : Type v} (up : StepCursor σ α) :
    σ × FuseState → Prop where
  | base (c : σ) : FuseReachG up (c, FuseState.Start)
  | step_advance {s : σ × FuseState} :
      FuseReachG up s → FuseReachG up (FuseGen.advance up s)
  | step_next {s : σ × FuseState} :
      FuseReachG up s → FuseReachG up (Fuse.next up.src s).1

lemma Fuse.next_src_some (src : Source σ α) (u : σ) (st : FuseState)
    (h : st ≠ FuseState.End) (u' : σ) (v : α) (hnx : src.next u = (u', some v)) :
    Fuse.next src (u, st) = ((u', FuseState.Middle), some v) := by
  rw [Fuse.next_notEnd _ _ _ h]
  exact congrArg (fun p : σ × Option α =>
    (match p with
     | (q, some i) => ((q, FuseState.Middle), some i)
     | (q, none) => ((q, FuseState.End), none) : (σ × FuseState) × Option α)) hnx

lemma Fuse.next_src_none (src : Source σ α) (u : σ) (st : FuseState)
    (h : st ≠ FuseState.End) (u' : σ) (hnx : src.next u = (u', none)) :
    Fuse.next src (u, st) = ((u', FuseState.End), none) := by
  rw [Fuse.next_notEnd _ _ _ h]
  exact congrArg (fun p : σ × Option α =>
    (match p with
     | (q, some i) => ((q, FuseState.Middle), some i)
     | (q, none) => ((q, FuseState.End), none) : (σ × FuseState) × Option α)) hnx

lemma FuseGen.advance_middle_some (up : StepCursor σ α)
    (h1 : ∀ t, up.is_done (up.advance t) = true ↔ up.get (up.advance t) = none)
    (u : σ) (st : FuseState)
    (h : (FuseGen.advance up (u, st)).2 = FuseState.Middle) :
    (up.get (FuseGen.advance up (u, st)).1).isSome := by
  cases st with
  | Start =>
      by_cases hd : up.is_done (up.advance u)
      · simp [FuseGen.advance, hd] at h
      · simp [FuseGen.advance, hd]
        rw [Option.isSome_iff_ne_none]
        intro he
        exact hd ((h1 u).mpr he)
  | Middle =>
      by_cases hd : up.is_done (up.advance u)
      · simp [FuseGen.advance, hd] at h
      · simp [FuseGen.advance, hd]
        rw [Option.isSome_iff_ne_none]
        intro he
        exact hd ((h1 u).mpr he)
  | End => simp [FuseGen.advance] at h

lemma FuseGen.next_middle_some (up : StepCursor σ α)
    (h2 : ∀ t, up.next t = (up.advance t, up.get (up.advance t)))
    (u : σ) (st : FuseState)
    (h : ((Fuse.next up.src (u, st)).1).2 = FuseState.Middle) :
    (up.get ((Fuse.next up.src (u, st)).1).1).isSome := by
  cases st with
  | End => simp [Fuse.next] at h
  | Start =>
      cases hg : up.get (up.advance u) with
      | none =>
          have hnx : up.src.next u = (up.advance u, none) := by
            have h2u := h2 u
            rw [hg] at h2u
            exact h2u
          rw [Fuse.next_src_none up.src u FuseState.Start (by simp) _ hnx] at h
          simp at h
      | some v =>
          have hnx : up.src.next u = (up.advance u, some v) := by
            have h2u := h2 u
            rw [hg] at h2u
            exact h2u
          rw [Fuse.next_src_some up.src u FuseState.Start (by simp) _ _ hnx]
          simp [hg]
  | Middle =>
      cases hg : up.get (up.advance u) with
      | none =>
          have hnx : up.src.next u = (up.advance u, none) := by
            have h2u := h2 u
            rw [hg] at h2u
            exact h2u
          rw [Fuse.next_src_none up.src u FuseState.Middle (by simp) _ hnx] at h
          simp at h
      | some v =>
          have hnx : up.src.next u = (up.advance u, some v) := by
            have h2u := h2 u
            rw [hg] at h2u
            exact h2u
          rw [Fuse.next_src_some up.src u FuseState.Middle (by simp) _ _ hnx]
          simp [hg]

lemma FuseReachG.middle_some {up : StepCursor σ α}
    (h1 : ∀ t, up.is_done (up.advance t) = true ↔ up.get (up.advance t) = none)
    (h2 : ∀ t, up.next t = (up.advance t, up.get (up.advance t)))
    {s : σ × FuseState} (hr : FuseReachG up s) :
    s.2 = FuseState.Middle → (up.get s.1).isSome := by
  induction hr with
  | base c => intro hm; simp at hm
  | step_advance hr ih =>
      rename_i t
      rcases t with ⟨u, st⟩
      exact FuseGen.advance_middle_some up h1 u st
  | step_next hr ih =>
      rename_i t
      rcases t with ⟨u, st⟩
      exact FuseGen.next_middle_some up h2 u st

/-- WindowsMut viewed as a StepCursor: its advance, get, is_done and the
overridden next. -/
def WindowsMut.step (α : Type u) : StepCursor (WindowsMut α) (List α) :=
  { advance := WindowsMut.advance
    get := WindowsMut.get
    is_done := WindowsMut.is_done
    next := WindowsMut.next }

/-- Claim C2 as stated is false: windows_mut([0,0,0], 2) is a freshly
constructed (hence reachable) cursor whose is_done() is false while get()
is None, because the overridden is_done compares buffer length to window
size and ignores the pre-first-advance Init position; the defect propagates
through delegating adapters: filter over that same un-advanced WindowsMut
is a reachable state of a different cursor type with is_done() false and
get() None as well. -/
theorem c2_is_done_counterexample :
    windows_mut ([0, 0, 0] : List Nat) 2 = some (wmFresh [0, 0, 0] 2) ∧
    WindowsMut.is_done (wmFresh ([0, 0, 0] : List Nat) 2) = false ∧
    WindowsMut.get (wmFresh ([0, 0, 0] : List Nat) 2) = none ∧
    FilterS.is_done (WindowsMut.cursor Nat) ⟨wmFresh [0, 0, 0] 2, fun _ => true⟩ = false ∧
    FilterS.get (WindowsMut.cursor Nat) ⟨wmFresh [0, 0, 0] 2, fun _ => true⟩ = none :=
  ⟨rfl, rfl, rfl, rfl, rfl⟩

/-- Claim C2 amended: is_done() agrees with get().is_none() everywhere
except where a pre-first-advance WindowsMut is consulted.  Precisely:
every primitive source (Convert, ConvertRef, ConvertMut, Empty, Once,
OnceWith, FromFn, Repeat, RepeatWith, Successors) and every cached-item
adapter (FilterMap, Map) satisfies the agreement in every state; every
delegating adapter (Filter, Skip, SkipWhile, Inspect, MapRef, Take,
TakeWhile, Rev, Chain, FlatMap, Flatten), over an arbitrary wrapped cursor,
satisfies it at every state at which the wrapped cursor(s) it consults
satisfy it; Fuse satisfies it at every reachable state over any upstream
whose next is advance-then-get and whose advance always lands on a state
satisfying the agreement; and WindowsMut satisfies it in every state whose
position is Front or Back, i.e. after any advance or advance_back. -/
theorem c2_amended_is_done_iff_get_none :
    (∀ {α : Type u} (s : Convert α), s.is_done = true ↔ s.get = none) ∧
    (∀ {α : Type u} (s : ConvertRef α), s.is_done = true ↔ s.get = none) ∧
    (∀ {α : Type u} (s : ConvertMut α), s.is_done = true ↔ s.get = none) ∧
    (∀ {α : Type u} (s : EmptyS α), s.is_done = true ↔ s.get = none) ∧
    (∀ {α : Type u} (s : Once α), s.is_done = true ↔ s.get = none) ∧
    (∀ {α : Type u} (s : OnceWith α), s.is_done = true ↔ s.get = none) ∧
    (∀ {α : Type u} (s : FromFn α), s.is_done = true ↔ s.get = none) ∧
    (∀ {α : Type u} (s : Repeat α), s.is_done = true ↔ s.get = none) ∧
    (∀ {α : Type u} (s : RepeatWith α), s.is_done = true ↔ s.get = none) ∧
    (∀ {α : Type u} (s : Successors α), s.is_done = true ↔ s.get = none) ∧
    (∀ {σ α β : Type u} (s : FilterMap σ α β), s.is_done = true ↔ s.get = none) ∧
    (∀ {σ α β : Type u} (s : Map σ α β), s.is_done = true ↔ s.get = none) ∧
    (∀ {σ α : Type u} (up : PeekCursor σ α) (s : FilterS σ α),
      (up.is_done s.it = true ↔ up.get s.it = none) →
      (FilterS.is_done up s = true ↔ FilterS.get up s = none)) ∧
    (∀ {σ α : Type u} (up : PeekCursor σ α) (s : Skip σ),
      (up.is_done s.it = true ↔ up.get s.it = none) →
      (Skip.is_done up s = true ↔ Skip.get up s = none)) ∧
    (∀ {σ α : Type u} (up : PeekCursor σ α) (s : SkipWhile σ α),
      (up.is_done s.it = true ↔ up.get s.it = none) →
      (SkipWhile.is_done up s = true ↔ SkipWhile.get up s = none)) ∧
    (∀ {σ α : Type u} (up : PeekCursor σ α) (s : Inspect σ α),
      (up.is_done s.it = true ↔ up.get s.it = none) →
      (Inspect.is_done up s = true ↔ Inspect.get up s = none)) ∧
    (∀ {σ α β : Type u} (up : PeekCursor σ α) (s : MapRef σ α β),
      (up.is_done s.it = true ↔ up.get s.it = none) →
      (MapRef.is_done up s = true ↔ MapRef.get up s = none)) ∧
    (∀ {σ α : Type u} (up : PeekCursor σ α) (s : Take σ),
      (up.is_done s.it = true ↔ up.get s.it = none) →
      (Take.is_done up s = true ↔ Take.get up s = none)) ∧
    (∀ {σ α : Type u} (up : PeekCursor σ α) (s : TakeWhile σ α),
      (up.is_done s.it = true ↔ up.get s.it = none) →
      (TakeWhile.is_done up s = true ↔ TakeWhile.get up s = none)) ∧
    (∀ {σ : Type u} {α : Type u} (it : DESIter σ α) (s : σ),
      (it.is_done s = true ↔ it.get s = none) →
      ((Rev it).is_done s = true ↔ (Rev it).get s = none)) ∧
    (∀ {σa σb α : Type u} (A : PeekCursor σa α) (B : PeekCursor σb α) (s : ChainGen σa σb),
      (A.is_done s.a = true ↔ A.get s.a = none) →
      (B.is_done s.b = true ↔ B.get s.b = none) →
      (ChainGen.is_done A B s = true ↔ ChainGen.get A B s = none)) ∧
    (∀ {σ τ α β : Type u} (J : PeekCursor τ α) (s : FlatMap σ τ α β),
      (∀ j, s.sub_iter = some j → (J.is_done j = true ↔ J.get j = none)) →
      (FlatMap.is_done J s = true ↔ FlatMap.get J s = none)) ∧
    (∀ {σ τ α : Type u} (outer : PeekCursor σ τ) (inner : PeekCursor τ α) (s : FlattenGen σ),
      (∀ t, outer.get s.iter = some t → (inner.is_done t = true ↔ inner.get t = none)) →
      (FlattenGen.is_done outer inner s = true ↔ FlattenGen.get outer inner s = none)) ∧
    (∀ {σ α : Type u} (up : StepCursor σ α),
      (∀ t, up.is_done (up.advance t) = true ↔ up.get (up.advance t) = none) →
      (∀ t, up.next t = (up.advance t, up.get (up.advance t))) →
      ∀ s, FuseReachG up s → (Fuse.is_done s = true ↔ FuseGen.get up s = none)) ∧
    (∀ {α : Type u} (s : WindowsMut α), s.position ≠ WPosition.Init →
      (s.is_done = true ↔ s.get = none)) := by
  refine ⟨?_, ?_, ?_, ?_, ?_, ?_, ?_, ?_, ?_, ?_, ?_, ?_, ?_, ?_, ?_, ?_, ?_, ?_, ?_, ?_,
    ?_, ?_, ?_, ?_, ?_⟩
  · intro α s; exact Option.isNone_iff_eq_none
  · intro α s; exact Option.isNone_iff_eq_none
  · intro α s; exact Option.isNone_iff_eq_none
  · intro α s; exact Option.isNone_iff_eq_none
  · intro α s; exact Option.isNone_iff_eq_none
  · intro α s; exact Option.isNone_iff_eq_none
  · intro α s; exact Option.isNone_iff_eq_none
  · intro α s; simp [Repeat.is_done, Repeat.get]
  · intro α s; exact Option.isNone_iff_eq_none
  · intro α s; exact Option.isNone_iff_eq_none
  · intro σ α β s; exact Option.isNone_iff_eq_none
  · intro σ α β s; exact Option.isNone_iff_eq_none
  · intro σ α up s h; exact h
  · intro σ α up s h; exact h
  · intro σ α up s h; exact h
  · intro σ α up s h; exact h
  · intro σ α β up s h
    unfold MapRef.is_done MapRef.get
    rw [h]
    cases hg : up.get s.it <;> simp [hg]
  · intro σ α up s h
    cases hd : s.done <;> simp [Take.is_done, Take.get, hd] <;> try exact h
  · intro σ α up s h
    cases hd : s.done <;> simp [TakeWhile.is_done, TakeWhile.get, hd] <;> try exact h
  · intro σ α it s h; exact h
  · intro σa σb α A B s hA hB
    rcases s with ⟨a, b, st⟩
    cases st <;> simp [ChainGen.is_done, ChainGen.get] <;> first | exact hA | exact hB
  · intro σ τ α β J s h
    cases hs : s.sub_iter with
    | none => simp [FlatMap.is_done, FlatMap.get, hs]
    | some j =>
        simp only [FlatMap.is_done, FlatMap.get, hs, Option.bind_some]
        exact h j hs
  · intro σ τ α outer inner s h
    cases hs : outer.get s.iter with
    | none => simp [FlattenGen.is_done, FlattenGen.get, hs]
    | some t =>
        simp only [FlattenGen.is_done, FlattenGen.get, hs, Option.bind_some]
        exact h t hs
  · intro σ α up h1 h2 s hr
    rcases s with ⟨u, st⟩
    cases st with
    | Start => simp [Fuse.is_done, FuseGen.get, Fuse.get]
    | End => simp [Fuse.is_done, FuseGen.get, Fuse.get]
    | Middle =>
        have hs := FuseReachG.middle_some h1 h2 hr rfl
        obtain ⟨v, hv⟩ := Option.isSome_iff_exists.mp hs
        have hv' : up.get u = some v := hv
        simp [Fuse.is_done, FuseGen.get, Fuse.get, StepCursor.src, hv']
  · intro α s hpos
    cases hp : s.position with
    | Init => exact absurd hp hpos
    | Front =>
        by_cases h : s.size ≤ s.slice.length <;>
          simp [WindowsMut.is_done, WindowsMut.get, WindowsMut.get_front, hp, h] <;>
          omega
    | Back =>
        by_cases h : s.size ≤ s.slice.length <;>
          simp [WindowsMut.is_done, WindowsMut.get, WindowsMut.get_back, hp, h] <;>
          omega

/-- Witness for the amended C2 at concrete inputs with each kind of
hypothesis discharged: a delegating adapter over an advanced WindowsMut, a
fused un-advanced WindowsMut, and an advanced WindowsMut itself. -/
theorem c2_amended_is_done_iff_get_none_witness :
    (FilterS.is_done (WindowsMut.cursor Nat) ⟨(wmFresh [1, 2, 3] 2).advance, fun _ => true⟩ = true
      ↔ FilterS.get (WindowsMut.cursor Nat) ⟨(wmFresh [1, 2, 3] 2).advance, fun _ => true⟩ = none) ∧
    (Fuse.is_done ((wmFresh ([9] : List Nat) 1, FuseState.Start)) = true
      ↔ FuseGen.get (WindowsMut.step Nat) (wmFresh [9] 1, FuseState.Start) = none) ∧
    (WindowsMut.is_done (wmFresh ([0, 0, 0] : List Nat) 2).advance = true
      ↔ WindowsMut.get (wmFresh ([0, 0, 0] : List Nat) 2).advance = none) := by
  obtain ⟨hConv, hCRef, hCMut, hEmp, hOnce, hOW, hFF, hRep, hRW, hSucc, hFM, hMap,
    hFil, hSkip, hSW, hIns, hMR, hTake, hTW, hRev, hChain, hFlatM, hFlat, hFuse, hWin⟩ :=
    c2_amended_is_done_iff_get_none.{0}
  refine ⟨?_, ?_, ?_⟩
  · exact hFil (WindowsMut.cursor Nat)
      ⟨(wmFresh [1, 2, 3] 2).advance, fun _ => true⟩ (by decide)
  · exact hFuse (WindowsMut.step Nat)
      (fun t => hWin t.advance (by simp [WindowsMut.advance]))
      (fun t => rfl)
      (wmFresh [9] 1, FuseState.Start) (FuseReachG.base _)
  · exact hWin (wmFresh ([0, 0, 0] : List Nat) 2).advance (by decide)
